import Mathlib

/-!
Verification of `prepare_ligands.py` (AutoSmiles2Dock).

The development embeds the two core functions of the repository:

* `reposition_ligand` — reads a PDB/PDBQT-style file, collects the
  coordinates of every line starting with `HETATM` or `ATOM` (fixed
  columns 30–38, 38–46, 46–54), computes the arithmetic-mean centroid,
  and rewrites every such line so the centroid moves to a target point,
  formatting each coordinate with Python's `f'{x:8.3f}'`.
* `convert_pdb_to_pdbqt` — tries three external conversion strategies in
  order, treating a strategy as successful when its subprocess call
  raises no `CalledProcessError` and the output artifact exists on disk.

Python floats are idealised as rationals (`ℚ`); `%8.3f` decimal rounding
is modelled exactly by round-half-even at the third decimal.  Lines are
lists of characters; a file's content is its list of lines as produced
by `readlines()` (newline characters included in each line).  Python's
`float()` is modelled for ordinary decimal literals (sign, digits,
decimal point, exponent, surrounding whitespace); `inf`/`nan` spellings
and underscore digit separators are not modelled, as no claim involves
them.
-/

set_option maxRecDepth 4000

/-- Python exception kinds that the embedded code can raise.  Both derive
from Python's `Exception`, hence both are caught by `except Exception`. -/
inductive PyErr : Type
  | valueError : PyErr
  | osError : PyErr
deriving DecidableEq

/-! ### Decimal digit strings -/

/-- Whitespace characters stripped by Python's `float()`. -/
def isWsChar (c : Char) : Bool :=
  c = ' ' || c = '\t' || c = '\n' || c = '\r' || c = '\x0b' || c = '\x0c'

/-- Numeric value of a decimal digit character. -/
def digitVal (c : Char) : Nat := c.toNat - 48

/-- Value of a big-endian string of decimal digits. -/
def digitsToNat (l : List Char) : Nat := l.foldl (fun a c => 10 * a + digitVal c) 0

/-- Fuel-driven big-endian decimal rendering of a natural number
(the fuel makes the definition structurally recursive, hence
kernel-evaluable). -/
def natCharsAux : Nat → Nat → List Char → List Char
  | 0, _, acc => acc
  | fuel + 1, n, acc =>
    if n ≤ 9 then Nat.digitChar n :: acc
    else natCharsAux fuel (n / 10) (Nat.digitChar (n % 10) :: acc)

/-- Decimal rendering of a natural number, as Python prints it. -/
def natChars (n : Nat) : List Char := natCharsAux (n + 1) n []

/-- Recursive specification of `natChars`, used only in proofs. -/
def natCharsSpec (n : Nat) : List Char :=
  if n ≤ 9 then [Nat.digitChar n]
  else natCharsSpec (n / 10) ++ [Nat.digitChar (n % 10)]
decreasing_by exact Nat.div_lt_self (by omega) (by omega)

theorem natCharsAux_eq_spec :
    ∀ (fuel n : Nat) (acc : List Char), n < fuel →
      natCharsAux fuel n acc = natCharsSpec n ++ acc := by
  intro fuel
  induction fuel with
  | zero => intro n acc h; omega
  | succ f ih =>
    intro n acc h
    rw [natCharsAux, natCharsSpec]
    by_cases hn : n ≤ 9
    · simp [hn]
    · simp only [if_neg hn]
      rw [ih (n / 10) _ (by omega)]
      simp

theorem natChars_eq_spec (n : Nat) : natChars n = natCharsSpec n := by
  rw [natChars, natCharsAux_eq_spec (n + 1) n [] (Nat.lt_succ_self n), List.append_nil]

theorem digitVal_digitChar {k : Nat} (h : k < 10) : digitVal (Nat.digitChar k) = k := by
  interval_cases k <;> decide

theorem isDigit_digitChar {k : Nat} (h : k < 10) : (Nat.digitChar k).isDigit = true := by
  interval_cases k <;> decide

theorem natCharsSpec_ne_nil (n : Nat) : natCharsSpec n ≠ [] := by
  rw [natCharsSpec]
  by_cases hn : n ≤ 9 <;> simp [hn]

theorem natChars_ne_nil (n : Nat) : natChars n ≠ [] := by
  rw [natChars_eq_spec]; exact natCharsSpec_ne_nil n

theorem mem_natCharsSpec_isDigit (n : Nat) : ∀ c ∈ natCharsSpec n, c.isDigit = true := by
  induction n using Nat.strong_induction_on with
  | _ n ih =>
    rw [natCharsSpec]
    by_cases hn : n ≤ 9
    · simp only [if_pos hn, List.mem_singleton]
      rintro c rfl
      exact isDigit_digitChar (by omega)
    · simp only [if_neg hn, List.mem_append, List.mem_singleton]
      rintro c (hc | rfl)
      · exact ih (n / 10) (Nat.div_lt_self (by omega) (by omega)) c hc
      · exact isDigit_digitChar (Nat.mod_lt _ (by omega))

theorem mem_natChars_isDigit (n : Nat) : ∀ c ∈ natChars n, c.isDigit = true := by
  rw [natChars_eq_spec]; exact mem_natCharsSpec_isDigit n

theorem foldl_digits_append (A : List Char) (c : Char) (a : Nat) :
    List.foldl (fun a c => 10 * a + digitVal c) a (A ++ [c]) =
      10 * List.foldl (fun a c => 10 * a + digitVal c) a A + digitVal c := by
  rw [List.foldl_append]; rfl

theorem digitsToNat_natCharsSpec (n : Nat) : digitsToNat (natCharsSpec n) = n := by
  induction n using Nat.strong_induction_on with
  | _ n ih =>
    rw [natCharsSpec]
    by_cases hn : n ≤ 9
    · simp only [if_pos hn]
      show 10 * 0 + digitVal (Nat.digitChar n) = n
      rw [digitVal_digitChar (by omega)]
      omega
    · simp only [if_neg hn]
      unfold digitsToNat
      rw [foldl_digits_append]
      have h1 : List.foldl (fun a c => 10 * a + digitVal c) 0 (natCharsSpec (n / 10)) = n / 10 :=
        ih (n / 10) (Nat.div_lt_self (by omega) (by omega))
      rw [h1, digitVal_digitChar (Nat.mod_lt _ (by omega))]
      omega

theorem digitsToNat_natChars (n : Nat) : digitsToNat (natChars n) = n := by
  rw [natChars_eq_spec]; exact digitsToNat_natCharsSpec n

theorem natCharsSpec_length_le {n k : Nat} (hk : 1 ≤ k) (h : n < 10 ^ k) :
    (natCharsSpec n).length ≤ k := by
  induction n using Nat.strong_induction_on generalizing k with
  | _ n ih =>
    rw [natCharsSpec]
    by_cases hn : n ≤ 9
    · simp only [if_pos hn, List.length_singleton]
      exact hk
    · simp only [if_neg hn, List.length_append, List.length_singleton]
      have hk2 : 2 ≤ k := by
        by_contra hc
        have hk1 : k = 1 := by omega
        subst hk1
        norm_num at h
        omega
      have hdiv : n / 10 < 10 ^ (k - 1) := by
        rw [Nat.div_lt_iff_lt_mul (by omega)]
        calc n < 10 ^ k := h
        _ = 10 ^ (k - 1) * 10 := by
              rw [← Nat.pow_succ]
              congr 1
              omega
      have := ih (n / 10) (Nat.div_lt_self (by omega) (by omega)) (by omega) hdiv
      omega

theorem natChars_length_le {n k : Nat} (hk : 1 ≤ k) (h : n < 10 ^ k) :
    (natChars n).length ≤ k := by
  rw [natChars_eq_spec]; exact natCharsSpec_length_le hk h

/-! ### Python `float()` on strings -/

/-- Strip leading and trailing whitespace, as Python's `float()` does. -/
def stripChars (l : List Char) : List Char :=
  ((l.dropWhile isWsChar).reverse.dropWhile isWsChar).reverse

/-- Split an optional leading sign; returns (is-negative, rest). -/
def splitSign : List Char → Bool × List Char
  | '-' :: r => (true, r)
  | '+' :: r => (false, r)
  | l => (false, l)

/-- Parse the optional exponent tail of a float literal: the empty string
means exponent `0`; `e`/`E` followed by an optionally signed digit run is
that exponent; anything else is a parse error. -/
def parseExpPart : List Char → Option Int
  | [] => some 0
  | c :: r =>
    if c = 'e' || c = 'E' then
      let s := splitSign r
      let ds := s.2.takeWhile Char.isDigit
      let rest := s.2.dropWhile Char.isDigit
      if ds.isEmpty || !rest.isEmpty then none
      else some (if s.1 then -(digitsToNat ds : Int) else (digitsToNat ds : Int))
    else none

/-- Scale a rational by a power of ten (decimal exponent). -/
def applyExp (x : ℚ) (e : Int) : ℚ :=
  if 0 ≤ e then x * 10 ^ e.toNat else x / 10 ^ (-e).toNat

/-- The mantissa-and-exponent part of a float literal, after sign
splitting: an integer digit run, an optional decimal point with a
fraction digit run, then the exponent tail. -/
def pyFloatBody (neg : Bool) (r1 : List Char) : Option ℚ :=
  match List.dropWhile Char.isDigit r1 with
  | '.' :: r3 =>
    if (List.takeWhile Char.isDigit r1).isEmpty && (List.takeWhile Char.isDigit r3).isEmpty then
      none
    else
      match parseExpPart (List.dropWhile Char.isDigit r3) with
      | none => none
      | some e =>
        some (applyExp
          ((if neg then -1 else 1) *
            ((digitsToNat (List.takeWhile Char.isDigit r1) : ℚ) +
              (digitsToNat (List.takeWhile Char.isDigit r3) : ℚ) /
                10 ^ (List.takeWhile Char.isDigit r3).length)) e)
  | r2 =>
    if (List.takeWhile Char.isDigit r1).isEmpty then none
    else
      match parseExpPart r2 with
      | none => none
      | some e =>
        some (applyExp
          ((if neg then -1 else 1) * (digitsToNat (List.takeWhile Char.isDigit r1) : ℚ)) e)

/-- Python's `float()` on a string, idealised over `ℚ`: optional
whitespace, optional sign, a digit run with optional decimal point and
fraction, and an optional exponent.  Returns `none` exactly when Python
raises `ValueError` (`inf`/`nan` spellings and underscore separators are
not modelled). -/
def pyFloat (l : List Char) : Option ℚ :=
  pyFloatBody (splitSign (stripChars l)).1 (splitSign (stripChars l)).2

/-! ### Python `f-string` fixed-point formatting -/

/-- Round-half-even of a rational to an integer, the rounding Python's
float formatting applies to the scaled value. -/
def rhe (q : ℚ) : Int :=
  if q - (⌊q⌋ : ℚ) < 1 / 2 then ⌊q⌋
  else if q - (⌊q⌋ : ℚ) > 1 / 2 then ⌊q⌋ + 1
  else if ⌊q⌋ % 2 = 0 then ⌊q⌋ else ⌊q⌋ + 1

/-- The three-digit fractional block of a `%.3f` rendering. -/
def fracChars (b : Nat) : List Char :=
  List.replicate (3 - (natChars b).length) '0' ++ natChars b

/-- Python's `f'{q:8.3f}'`: fixed-point with three decimals, right
aligned in a field of (at least) eight characters; wider values are not
truncated.  The sign is taken from the value itself, so a negative value
rounding to zero renders as `-0.000`, as in Python. -/
def pyFormat83 (q : ℚ) : List Char :=
  let m := rhe (q * 1000)
  let body :=
    (if q < 0 then ['-'] else []) ++
      natChars (m.natAbs / 1000) ++ '.' :: fracChars (m.natAbs % 1000)
  List.replicate (8 - body.length) ' ' ++ body

/-- `rhe` rounded value scaled back to thousandths. -/
def rhe3 (q : ℚ) : ℚ := (rhe (q * 1000) : ℚ) / 1000

/-! ### The record model of `reposition_ligand` -/

/-- Coordinate triple. -/
abbrev Q3 := ℚ × ℚ × ℚ

/-- Python slice `l[a:b]` for `a ≤ b`. -/
def span (a b : Nat) (l : List Char) : List Char := (l.drop a).take (b - a)

/-- `line.startswith('HETATM') or line.startswith('ATOM')`: the test the
source uses to pick out geometry-participating records. -/
def geomLine (l : List Char) : Bool :=
  decide (l.take 6 = "HETATM".toList) || decide (l.take 4 = "ATOM".toList)

/-- `float(line[30:38]), float(line[38:46]), float(line[46:54])`; `none`
when any of the three raises `ValueError`. -/
def parseXYZ (l : List Char) : Option Q3 :=
  match pyFloat (span 30 38 l), pyFloat (span 38 46 l), pyFloat (span 46 54 l) with
  | some x, some y, some z => some (x, y, z)
  | _, _, _ => none

/-- The coordinate-collection loop of `reposition_ligand`: walk the lines
in order, parse every geometry line, `none` at the first malformed one. -/
def collectCoords : List (List Char) → Option (List Q3)
  | [] => some []
  | l :: ls =>
    if geomLine l then
      match parseXYZ l, collectCoords ls with
      | some c, some cs => some (c :: cs)
      | _, _ => none
    else collectCoords ls

/-- Mean of the first components (`sum(...) / len(coords)`). -/
def meanX (cs : List Q3) : ℚ := (cs.map (fun c => c.1)).sum / (cs.length : ℚ)

/-- Mean of the second components. -/
def meanY (cs : List Q3) : ℚ := (cs.map (fun c => c.2.1)).sum / (cs.length : ℚ)

/-- Mean of the third components. -/
def meanZ (cs : List Q3) : ℚ := (cs.map (fun c => c.2.2)).sum / (cs.length : ℚ)

/-- The per-line rewriting step of `reposition_ligand`: a geometry line is
re-parsed and rebuilt as `line[:30] + f'{x:8.3f}' + f'{y:8.3f}' +
f'{z:8.3f}' + line[54:]`; any other line is left untouched.  (The `none`
branch is unreachable on runs where the collection phase succeeded.) -/
def rewriteIf (t : Q3) (l : List Char) : List Char :=
  if geomLine l then
    match parseXYZ l with
    | some c =>
      l.take 30 ++ pyFormat83 (c.1 + t.1) ++ pyFormat83 (c.2.1 + t.2.1) ++
        pyFormat83 (c.2.2 + t.2.2) ++ l.drop 54
    | none => l
  else l

/-- The body of `reposition_ligand` before its `except Exception` wrapper.
The input is `none` when the input file cannot be opened (Python's `open`
raises `OSError`), otherwise the list of lines `readlines()` returns.
The result distinguishes a raised exception (`Except.error`) from a
normal return: `ok (false, none)` is the `if not coords: return False`
path, `ok (true, some out)` is the successful path with `out` the lines
written to the output file. -/
def repositionBody (content : Option (List (List Char))) (tx ty tz : ℚ) :
    Except PyErr (Bool × Option (List (List Char))) :=
  match content with
  | none => Except.error PyErr.osError
  | some lines =>
    match collectCoords lines with
    | none => Except.error PyErr.valueError
    | some [] => Except.ok (false, none)
    | some (c :: cs) =>
      let t : Q3 :=
        (tx - meanX (c :: cs), ty - meanY (c :: cs), tz - meanZ (c :: cs))
      Except.ok (true, some (lines.map (rewriteIf t)))

/-- `reposition_ligand`: the whole function including the catch-all
`except Exception` that converts every internal failure into `False`.
Returns the Python boolean and the content of the output file (`none`
when no output file was written). -/
def reposition_ligand (content : Option (List (List Char))) (tx ty tz : ℚ) :
    Bool × Option (List (List Char)) :=
  match repositionBody content tx ty tz with
  | Except.ok r => r
  | Except.error _ => (false, none)

/-- Whether Python's `except Exception` catches a raised error.  Both
`ValueError` and `OSError` derive from `Exception`. -/
def caughtByExcept : PyErr → Bool
  | PyErr.valueError => true
  | PyErr.osError => true

/-- `reposition_ligand` as seen by its caller when exceptions are made
explicit: an uncaught exception would surface as `Except.error`. -/
def reposition_ligandE (content : Option (List (List Char))) (tx ty tz : ℚ) :
    Except PyErr (Bool × Option (List (List Char))) :=
  match repositionBody content tx ty tz with
  | Except.ok r => Except.ok r
  | Except.error e => if caughtByExcept e then Except.ok (false, none) else Except.error e

/-- The translation vector the successful run applies, as a function of
the input (junk value `(0,0,0)` when collection fails or is empty). -/
def translationOf (lines : List (List Char)) (tx ty tz : ℚ) : Q3 :=
  match collectCoords lines with
  | some (c :: cs) =>
    (tx - meanX (c :: cs), ty - meanY (c :: cs), tz - meanZ (c :: cs))
  | _ => (0, 0, 0)

/-- The collected coordinates of an input (junk value `[]` when the
collection phase fails). -/
def coordsOf (lines : List (List Char)) : List Q3 := (collectCoords lines).getD []

/-- A value whose `%8.3f` rendering occupies exactly the eight columns of
its coordinate field. -/
def fits8 (q : ℚ) : Prop := (pyFormat83 q).length = 8

instance (q : ℚ) : Decidable (fits8 q) := by unfold fits8; infer_instance

/-- Exact translation followed by decimal re-quantisation: the value a
coordinate triple takes in the rewritten file. -/
def shift3 (t : Q3) (c : Q3) : Q3 :=
  (rhe3 (c.1 + t.1), rhe3 (c.2.1 + t.2.1), rhe3 (c.2.2 + t.2.2))

/-! ### The model of `convert_pdb_to_pdbqt` -/

/-- Outcome of one `subprocess.run(cmd, shell=True, check=True, ...)`
invocation: clean zero exit, `CalledProcessError` from a non-zero exit,
or any other exception raised during the invocation. -/
inductive StratOutcome : Type
  | exitZero : StratOutcome
  | nonzeroExit : StratOutcome
  | otherRaise : StratOutcome
deriving DecidableEq

/-- Environment of one `convert_pdb_to_pdbqt` call: what each of the
three strategies' subprocesses does, whether the output artifact already
exists before the call, and whether each strategy leaves the artifact on
disk after its attempt. -/
structure ConvEnv : Type where
  outcome : Fin 3 → StratOutcome
  pre : Bool
  writes : Fin 3 → Bool

/-- `os.path.exists(pdbqt_file)` after strategy 1 has run. -/
def fsAfter1 (env : ConvEnv) : Bool := env.pre || env.writes 0

/-- `os.path.exists(pdbqt_file)` after strategies 1 and 2 have run. -/
def fsAfter2 (env : ConvEnv) : Bool := fsAfter1 env || env.writes 1

/-- `os.path.exists(pdbqt_file)` after all three strategies have run. -/
def fsAfter3 (env : ConvEnv) : Bool := fsAfter2 env || env.writes 2

/-- Method 3 of `convert_pdb_to_pdbqt` (the `pythonsh` strategy) followed
by the final `return False`. -/
def method3 (env : ConvEnv) : Except Unit Bool :=
  match env.outcome 2 with
  | StratOutcome.otherRaise => Except.error ()
  | StratOutcome.nonzeroExit => Except.ok false
  | StratOutcome.exitZero => if fsAfter3 env then Except.ok true else Except.ok false

/-- Method 2 of `convert_pdb_to_pdbqt` (the `obabel` strategy) and what
follows it. -/
def method2 (env : ConvEnv) : Except Unit Bool :=
  match env.outcome 1 with
  | StratOutcome.otherRaise => Except.error ()
  | StratOutcome.nonzeroExit => method3 env
  | StratOutcome.exitZero => if fsAfter2 env then Except.ok true else method3 env

/-- `convert_pdb_to_pdbqt`: three strategies in fixed order; each `try`
block catches only `subprocess.CalledProcessError`; a strategy returns
`True` when its subprocess exits zero and the artifact exists on disk
afterwards; `Except.error` models an exception propagating out of the
function. -/
def convert_pdb_to_pdbqt (env : ConvEnv) : Except Unit Bool :=
  match env.outcome 0 with
  | StratOutcome.otherRaise => Except.error ()
  | StratOutcome.nonzeroExit => method2 env
  | StratOutcome.exitZero => if fsAfter1 env then Except.ok true else method2 env

/-- Strategy 1 succeeds: zero exit and the artifact exists at its check. -/
def strat1Success (env : ConvEnv) : Bool :=
  (match env.outcome 0 with | StratOutcome.exitZero => true | _ => false) && fsAfter1 env

/-- Strategy 2 succeeds: zero exit and the artifact exists at its check. -/
def strat2Success (env : ConvEnv) : Bool :=
  (match env.outcome 1 with | StratOutcome.exitZero => true | _ => false) && fsAfter2 env

/-- Strategy 3 succeeds: zero exit and the artifact exists at its check. -/
def strat3Success (env : ConvEnv) : Bool :=
  (match env.outcome 2 with | StratOutcome.exitZero => true | _ => false) && fsAfter3 env

/-! ### Validity predicates -/

/-- All rewritten coordinate fields of a run still fit their eight-column
coordinate fields (the no-overflow side condition of the fixed-width
format). -/
def fitsRun (lines : List (List Char)) (tx ty tz : ℚ) : Prop :=
  ∀ c ∈ coordsOf lines,
    fits8 (c.1 + (translationOf lines tx ty tz).1) ∧
    fits8 (c.2.1 + (translationOf lines tx ty tz).2.1) ∧
    fits8 (c.2.2 + (translationOf lines tx ty tz).2.2)

instance (lines : List (List Char)) (tx ty tz : ℚ) : Decidable (fitsRun lines tx ty tz) := by
  unfold fitsRun
  infer_instance

/-- A coordinate triple exactly representable in the three-decimal
fixed-point fields of the record format (the data model's own validity
condition on coordinate fields). -/
def millirational (c : Q3) : Prop :=
  (c.1 * 1000).den = 1 ∧ (c.2.1 * 1000).den = 1 ∧ (c.2.2 * 1000).den = 1

instance (c : Q3) : Decidable (millirational c) := by
  unfold millirational
  infer_instance

/-! ### Concrete example inputs -/

/-- A 54-column geometry line: `HETATM`, 24 filler columns, and three
8-column coordinate fields. -/
def mkLine (xs ys zs : String) : List Char :=
  "HETATM".toList ++ List.replicate 24 ' ' ++ xs.toList ++ ys.toList ++ zs.toList

/-- The spec's end-to-end example input: atoms at (0,0,0) and (2,2,2). -/
def exTwoAtoms : List (List Char) :=
  [mkLine "   0.000" "   0.000" "   0.000", mkLine "   2.000" "   2.000" "   2.000"]

/-- Output lines of the end-to-end example run with target (10,10,10). -/
def exTwoAtomsOut : List (List Char) :=
  (reposition_ligand (some exTwoAtoms) 10 10 10).2.getD []

/-- Output lines of the end-to-end example run with the target set to the
structure's own centroid (1,1,1). -/
def exTwoAtomsIdOut : List (List Char) :=
  (reposition_ligand (some exTwoAtoms) 1 1 1).2.getD []

/-- Three atoms at x = 0, 0, 0.001: their centroid is not representable
in three decimals, so requantisation moves the written centroid. -/
def exThirds : List (List Char) :=
  [mkLine "   0.000" "   0.000" "   0.000", mkLine "   0.000" "   0.000" "   0.000",
   mkLine "   0.001" "   0.000" "   0.000"]

/-- Output lines of the run on `exThirds` with target (10,0,0). -/
def exThirdsOut : List (List Char) :=
  (reposition_ligand (some exThirds) 10 0 0).2.getD []

/-- A geometry line with two suffix bytes after the coordinate fields. -/
def exSuffix : List Char := mkLine "   0.000" "   0.000" "   0.000" ++ "QQ".toList

/-- The single output line of the run on `[exSuffix]` with the
overflowing target x = 100000. -/
def exSuffixOutLine : List Char :=
  ((reposition_ligand (some [exSuffix]) 100000 0 0).2.getD []).getD 0 []

/-- A 49-character geometry line: its z field is truncated to the three
characters `3.0`, which still parse as a float. -/
def exShort : List Char :=
  "HETATM".toList ++ List.replicate 24 ' ' ++ "   1.000".toList ++ "   2.000".toList
    ++ "3.0".toList

/-- A 46-character geometry line: its z field is empty, so `float('')`
raises `ValueError`. -/
def exBad46 : List Char :=
  "HETATM".toList ++ List.replicate 24 ' ' ++ "   1.000".toList ++ "   2.000".toList

/-- A structure with a non-geometry line and one atom at the origin. -/
def exMix : List (List Char) :=
  ["REMARK demo".toList, mkLine "   0.000" "   0.000" "   0.000"]

/-- Output lines of the run on `exMix` with target (10,10,10). -/
def exMixOut : List (List Char) :=
  (reposition_ligand (some exMix) 10 10 10).2.getD []

/-- A structure with no geometry records at all. -/
def exNoGeom : List (List Char) := ["REMARK demo".toList, "CONECT    1    2".toList]

/-- Fallback environment where strategy 1 raises an exception that is not
a `CalledProcessError`, while the later strategies would succeed. -/
def envRaise1 : ConvEnv :=
  ⟨fun i => if i = 0 then StratOutcome.otherRaise else StratOutcome.exitZero,
   false, fun _ => true⟩

/-- The spec's fallback scenario: strategy 1 exits non-zero, strategy 2
exits zero but writes nothing, strategy 3 succeeds. -/
def envScenario : ConvEnv :=
  ⟨fun i => if i = 0 then StratOutcome.nonzeroExit else StratOutcome.exitZero,
   false, fun i => if i = 2 then true else false⟩

/-- A stale-artifact environment: the artifact pre-exists, every strategy
exits zero, and no strategy writes anything. -/
def envStale : ConvEnv :=
  ⟨fun _ => StratOutcome.exitZero, true, fun _ => false⟩

/-! ### List and character lemmas -/

theorem ws_char_cases {c : Char} (h : isWsChar c = true) :
    c = ' ' ∨ c = '\t' ∨ c = '\n' ∨ c = '\r' ∨ c = '\x0b' ∨ c = '\x0c' := by
  have := h
  simp only [isWsChar, Bool.or_eq_true, decide_eq_true_eq] at this
  tauto

theorem not_ws_of_digit {c : Char} (h : c.isDigit = true) : isWsChar c = false := by
  by_contra hc
  have hws : isWsChar c = true := by revert hc; cases isWsChar c <;> simp
  rcases ws_char_cases hws with h' | h' | h' | h' | h' | h' <;> (rw [h'] at h; simp at h)

theorem dropWhile_replicate_append (p : Char → Bool) (k : Nat) (c : Char) (l : List Char)
    (h : p c = true) :
    List.dropWhile p (List.replicate k c ++ l) = List.dropWhile p l := by
  induction k with
  | zero => rfl
  | succ n ih => simp [List.replicate_succ, List.dropWhile_cons, h, ih]

theorem dropWhile_eq_self (p : Char → Bool) (l : List Char) (h : ∀ c ∈ l, p c = false) :
    List.dropWhile p l = l := by
  cases l with
  | nil => rfl
  | cons c r => simp [List.dropWhile_cons, h c (List.mem_cons_self c r)]

theorem takeWhile_append_stop (p : Char → Bool) (A : List Char) (h : Char) (t : List Char)
    (hA : ∀ c ∈ A, p c = true) (hh : p h = false) :
    List.takeWhile p (A ++ h :: t) = A := by
  induction A with
  | nil => simp [List.takeWhile_cons, hh]
  | cons c r ih =>
    have hc := hA c (List.mem_cons_self c r)
    have ih' := ih fun x hx => hA x (List.mem_cons_of_mem c hx)
    simp [List.cons_append, List.takeWhile_cons, hc, ih']

theorem dropWhile_append_stop (p : Char → Bool) (A : List Char) (h : Char) (t : List Char)
    (hA : ∀ c ∈ A, p c = true) (hh : p h = false) :
    List.dropWhile p (A ++ h :: t) = h :: t := by
  induction A with
  | nil => simp [List.dropWhile_cons, hh]
  | cons c r ih =>
    have hc := hA c (List.mem_cons_self c r)
    have ih' := ih fun x hx => hA x (List.mem_cons_of_mem c hx)
    simp [List.cons_append, List.dropWhile_cons, hc, ih']

theorem takeWhile_all (p : Char → Bool) (l : List Char) (h : ∀ c ∈ l, p c = true) :
    List.takeWhile p l = l := by
  induction l with
  | nil => rfl
  | cons c r ih =>
    have hc := h c (List.mem_cons_self c r)
    have ih' := ih fun x hx => h x (List.mem_cons_of_mem c hx)
    simp [List.takeWhile_cons, hc, ih']

theorem dropWhile_all (p : Char → Bool) (l : List Char) (h : ∀ c ∈ l, p c = true) :
    List.dropWhile p l = [] := by
  induction l with
  | nil => rfl
  | cons c r ih =>
    have hc := h c (List.mem_cons_self c r)
    have ih' := ih fun x hx => h x (List.mem_cons_of_mem c hx)
    simp [List.dropWhile_cons, hc, ih']

theorem stripChars_pad (k : Nat) (body : List Char)
    (hb : ∀ c ∈ body, isWsChar c = false) :
    stripChars (List.replicate k ' ' ++ body) = body := by
  unfold stripChars
  rw [dropWhile_replicate_append _ _ _ _ (by decide),
    dropWhile_eq_self _ _ hb,
    dropWhile_eq_self _ _ (fun c hc => hb c (List.mem_reverse.mp hc)),
    List.reverse_reverse]

/-! ### Parsing a canonically formatted coordinate field -/

theorem mem_fracChars_isDigit (b : Nat) : ∀ c ∈ fracChars b, c.isDigit = true := by
  intro c hc
  rcases List.mem_append.mp hc with h | h
  · rw [List.eq_of_mem_replicate h]; decide
  · exact mem_natChars_isDigit b c h

theorem digitsToNat_replicate_zero (k : Nat) (l : List Char) :
    digitsToNat (List.replicate k '0' ++ l) = digitsToNat l := by
  induction k with
  | zero => rfl
  | succ n ih => simpa [digitsToNat, List.replicate_succ] using ih

theorem digitsToNat_fracChars (b : Nat) : digitsToNat (fracChars b) = b := by
  rw [fracChars, digitsToNat_replicate_zero, digitsToNat_natChars]

theorem fracChars_length (b : Nat) (hb : b < 1000) : (fracChars b).length = 3 := by
  have h3 : (natChars b).length ≤ 3 := natChars_length_le (by omega) (by norm_num; omega)
  simp only [fracChars, List.length_append, List.length_replicate]
  omega

theorem splitSign_neg (r : List Char) : splitSign ('-' :: r) = (true, r) := rfl

theorem splitSign_other {c : Char} (r : List Char) (h1 : c ≠ '-') (h2 : c ≠ '+') :
    splitSign (c :: r) = (false, c :: r) := by
  unfold splitSign
  split
  · simp_all
  · simp_all
  · rfl

theorem isEmpty_eq_false_of_ne_nil {l : List Char} (h : l ≠ []) : l.isEmpty = false := by
  cases l with
  | nil => exact absurd rfl h
  | cons c r => rfl

theorem applyExp_zero (x : ℚ) : applyExp x 0 = x := by
  unfold applyExp
  norm_num

theorem digit_ne_minus {c : Char} (h : c.isDigit = true) : c ≠ '-' := by
  rintro rfl; simp at h

theorem digit_ne_plus {c : Char} (h : c.isDigit = true) : c ≠ '+' := by
  rintro rfl; simp at h

/-- Parsing a canonically `%-.3f`-formatted field: optional left padding,
optional minus sign, decimal digits, a point, and a three-digit fraction
block parse back to the signed value they denote. -/
theorem pyFloat_canonical (neg : Bool) (a b pad : Nat) (hb : b < 1000) :
    pyFloat (List.replicate pad ' ' ++ (cond neg ['-'] [] ++ (natChars a ++ '.' :: fracChars b)))
      = some ((cond neg (-1) 1 : ℚ) * ((a : ℚ) + (b : ℚ) / 1000)) := by
  have hdiga : ∀ c ∈ natChars a, Char.isDigit c = true := mem_natChars_isDigit a
  have hdigb : ∀ c ∈ fracChars b, Char.isDigit c = true := mem_fracChars_isDigit b
  have hdot : Char.isDigit '.' = false := by decide
  have hbody : ∀ c ∈ cond neg ['-'] [] ++ (natChars a ++ '.' :: fracChars b),
      isWsChar c = false := by
    intro c hc
    have hc' : c ∈ (cond neg ['-'] []) ∨ c ∈ natChars a ∨ c = '.' ∨ c ∈ fracChars b := by
      simp only [List.mem_append, List.mem_cons] at hc
      tauto
    rcases hc' with h | h | rfl | h
    · cases neg with
      | false => simp at h
      | true =>
        have hcm : c = '-' := by simpa using h
        subst hcm
        decide
    · exact not_ws_of_digit (hdiga c h)
    · decide
    · exact not_ws_of_digit (hdigb c h)
  have hmantissa : ∀ (r1 : List Char), r1 = natChars a ++ '.' :: fracChars b →
      pyFloatBody neg r1 = some ((cond neg (-1) 1 : ℚ) * ((a : ℚ) + (b : ℚ) / 1000)) := by
    intro r1 hr1
    subst hr1
    unfold pyFloatBody
    rw [dropWhile_append_stop _ _ _ _ hdiga hdot,
      takeWhile_append_stop _ _ _ _ hdiga hdot]
    simp only [takeWhile_all _ _ hdigb, dropWhile_all _ _ hdigb,
      isEmpty_eq_false_of_ne_nil (natChars_ne_nil a), Bool.false_and, Bool.and_false,
      if_neg (Bool.false_ne_true), parseExpPart]
    rw [digitsToNat_natChars, digitsToNat_fracChars, fracChars_length b hb, applyExp_zero]
    cases neg <;> norm_num
  unfold pyFloat
  rw [stripChars_pad _ _ hbody]
  cases neg with
  | true =>
    rw [show (cond true ['-'] ([] : List Char)) ++ (natChars a ++ '.' :: fracChars b)
        = '-' :: (natChars a ++ '.' :: fracChars b) from rfl, splitSign_neg]
    exact hmantissa _ rfl
  | false =>
    rw [show (cond false ['-'] ([] : List Char)) ++ (natChars a ++ '.' :: fracChars b)
        = natChars a ++ '.' :: fracChars b from rfl]
    rcases hhead : natChars a with _ | ⟨c, cs⟩
    · exact absurd hhead (natChars_ne_nil a)
    · have hcdig : c.isDigit = true := by
        apply hdiga
        rw [hhead]
        exact List.mem_cons_self c cs
      rw [List.cons_append,
        splitSign_other _ (digit_ne_minus hcdig) (digit_ne_plus hcdig)]
      exact hmantissa _ (by rw [hhead]; simp)

/-! ### Round-half-even facts -/

theorem rhe_cases (v : ℚ) : rhe v = ⌊v⌋ ∨ rhe v = ⌊v⌋ + 1 := by
  unfold rhe
  split_ifs <;> simp

theorem rhe_nonneg {v : ℚ} (h : 0 ≤ v) : 0 ≤ rhe v := by
  have hf : 0 ≤ ⌊v⌋ := Int.le_floor.mpr (by exact_mod_cast h)
  rcases rhe_cases v with h' | h' <;> omega

theorem rhe_nonpos {v : ℚ} (h : v ≤ 0) : rhe v ≤ 0 := by
  have hfl : (⌊v⌋ : ℚ) ≤ v := Int.floor_le v
  have hf : ⌊v⌋ ≤ 0 := by
    have : ⌊v⌋ ≤ ⌊(0 : ℚ)⌋ := Int.floor_le_floor h
    simpa using this
  unfold rhe
  split_ifs with h1 h2 h3
  · exact hf
  · by_contra hc
    have hf0 : ⌊v⌋ = 0 := by omega
    rw [hf0] at h2
    push_cast at h2
    linarith
  · exact hf
  · by_contra hc
    have hf0 : ⌊v⌋ = 0 := by omega
    rw [hf0] at h1 h3
    push_cast at h1 h3
    linarith

theorem abs_rhe_sub_le (v : ℚ) : |(rhe v : ℚ) - v| ≤ 1 / 2 := by
  have hfl : (⌊v⌋ : ℚ) ≤ v := Int.floor_le v
  have hfu : v < (⌊v⌋ : ℚ) + 1 := Int.lt_floor_add_one v
  unfold rhe
  split_ifs with h1 h2 h3 <;> rw [abs_le] <;> constructor <;> push_cast <;> linarith

theorem rhe_intCast (k : Int) : rhe ((k : ℚ)) = k := by
  unfold rhe
  rw [Int.floor_intCast]
  simp

theorem abs_rhe3_sub_le (q : ℚ) : |rhe3 q - q| ≤ 1 / 2000 := by
  have h := abs_rhe_sub_le (q * 1000)
  rw [rhe3]
  have hq : (rhe (q * 1000) : ℚ) / 1000 - q = ((rhe (q * 1000) : ℚ) - q * 1000) / 1000 := by
    ring
  rw [hq, abs_div]
  rw [show |(1000 : ℚ)| = 1000 by norm_num]
  linarith

theorem rhe3_exact {q : ℚ} (h : (q * 1000).den = 1) : rhe3 q = q := by
  have hnum : ((q * 1000).num : ℚ) = q * 1000 := by
    rw [← Rat.den_eq_one_iff]
    exact h
  rw [rhe3, show q * 1000 = ((q * 1000).num : ℚ) from hnum.symm, rhe_intCast, hnum]
  field_simp

/-! ### Line structure under rewriting -/

theorem pyFloat_nil : pyFloat [] = none := rfl

theorem parseXYZ_none_of_short {l : List Char} (h : l.length ≤ 30) : parseXYZ l = none := by
  have hspan : span 30 38 l = [] := by
    unfold span
    rw [List.drop_eq_nil_of_le h]
    rfl
  unfold parseXYZ
  rw [hspan, pyFloat_nil]

theorem parseXYZ_some_length {l : List Char} {c : Q3} (h : parseXYZ l = some c) :
    31 ≤ l.length := by
  by_contra hc
  rw [parseXYZ_none_of_short (by omega)] at h
  exact Option.noConfusion h

/-! ### Parsing back a formatted coordinate -/

theorem pyFloat_pyFormat83 (q : ℚ) : pyFloat (pyFormat83 q) = some (rhe3 q) := by
  set m := rhe (q * 1000) with hm
  have hb : m.natAbs % 1000 < 1000 := Nat.mod_lt _ (by norm_num)
  have hdm : 1000 * (m.natAbs / 1000) + m.natAbs % 1000 = m.natAbs := Nat.div_add_mod _ 1000
  have hdmq : 1000 * ((m.natAbs / 1000 : ℕ) : ℚ) + ((m.natAbs % 1000 : ℕ) : ℚ) =
      ((m.natAbs : ℕ) : ℚ) := by exact_mod_cast hdm
  by_cases hq : q < 0
  · have hle : m ≤ 0 := rhe_nonpos (by nlinarith)
    have habs : ((m.natAbs : ℕ) : ℚ) = -(m : ℚ) := by
      rw [Int.cast_natAbs, abs_of_nonpos hle]
      push_cast
      ring
    have hc := pyFloat_canonical true (m.natAbs / 1000) (m.natAbs % 1000)
      (8 - (['-'] ++ (natChars (m.natAbs / 1000) ++ '.' :: fracChars (m.natAbs % 1000))).length) hb
    simp only [Bool.cond_true] at hc
    simp only [pyFormat83, ← hm, if_pos hq, List.append_assoc]
    rw [hc, rhe3, ← hm]
    congr 1
    field_simp
    linarith [hdmq, habs]
  · have hge : 0 ≤ m := rhe_nonneg (by nlinarith [not_lt.mp hq])
    have habs : ((m.natAbs : ℕ) : ℚ) = (m : ℚ) := by
      rw [Int.cast_natAbs, abs_of_nonneg hge]
    have hc := pyFloat_canonical false (m.natAbs / 1000) (m.natAbs % 1000)
      (8 - (natChars (m.natAbs / 1000) ++ '.' :: fracChars (m.natAbs % 1000)).length) hb
    simp only [Bool.cond_false, List.nil_append] at hc
    simp only [pyFormat83, ← hm, if_neg hq, List.append_assoc, List.nil_append]
    rw [hc, rhe3, ← hm]
    congr 1
    field_simp
    linarith [hdmq, habs]

/-! ### The rewritten geometry line -/

theorem rewriteIf_eq {t : Q3} {l : List Char} {c : Q3}
    (hg : geomLine l = true) (hp : parseXYZ l = some c) :
    rewriteIf t l =
      l.take 30 ++ (pyFormat83 (c.1 + t.1) ++ (pyFormat83 (c.2.1 + t.2.1) ++
        (pyFormat83 (c.2.2 + t.2.2) ++ l.drop 54))) := by
  unfold rewriteIf
  rw [if_pos hg, hp]
  simp [List.append_assoc]

theorem rewriteIf_take30 {t : Q3} {l : List Char} {c : Q3}
    (hg : geomLine l = true) (hp : parseXYZ l = some c) :
    (rewriteIf t l).take 30 = l.take 30 := by
  have hlen := parseXYZ_some_length hp
  have hT : (l.take 30).length = 30 := by rw [List.length_take]; omega
  rw [rewriteIf_eq hg hp, List.take_left' hT]

theorem rewriteIf_drop30 {t : Q3} {l : List Char} {c : Q3}
    (hg : geomLine l = true) (hp : parseXYZ l = some c) :
    (rewriteIf t l).drop 30 =
      pyFormat83 (c.1 + t.1) ++ (pyFormat83 (c.2.1 + t.2.1) ++
        (pyFormat83 (c.2.2 + t.2.2) ++ l.drop 54)) := by
  have hlen := parseXYZ_some_length hp
  have hT : (l.take 30).length = 30 := by rw [List.length_take]; omega
  rw [rewriteIf_eq hg hp, List.drop_left' hT]

theorem rewriteIf_drop54 {t : Q3} {l : List Char} {c : Q3}
    (hg : geomLine l = true) (hp : parseXYZ l = some c)
    (h1 : fits8 (c.1 + t.1)) (h2 : fits8 (c.2.1 + t.2.1)) (h3 : fits8 (c.2.2 + t.2.2)) :
    (rewriteIf t l).drop 54 = l.drop 54 := by
  have h54 : (54 : Nat) = 30 + 24 := by norm_num
  rw [h54, ← List.drop_drop, rewriteIf_drop30 hg hp,
    show (24 : Nat) = 8 + 16 from by norm_num, ← List.drop_drop,
    List.drop_left' h1,
    show (16 : Nat) = 8 + 8 from by norm_num, ← List.drop_drop,
    List.drop_left' h2, List.drop_left' h3]

theorem rewriteIf_geom {t : Q3} {l : List Char} {c : Q3}
    (hg : geomLine l = true) (hp : parseXYZ l = some c) :
    geomLine (rewriteIf t l) = true := by
  have hlen := parseXYZ_some_length hp
  have hT : (l.take 30).length = 30 := by rw [List.length_take]; omega
  have htake : ∀ n : Nat, n ≤ 30 → (rewriteIf t l).take n = l.take n := by
    intro n hn
    rw [rewriteIf_eq hg hp, List.take_append_eq_append_take, hT,
      Nat.sub_eq_zero_of_le hn]
    simp [List.take_take, Nat.min_eq_left hn]
  unfold geomLine at hg ⊢
  rw [htake 6 (by norm_num), htake 4 (by norm_num)]
  exact hg

theorem rewriteIf_parse {t : Q3} {l : List Char} {c : Q3}
    (hg : geomLine l = true) (hp : parseXYZ l = some c)
    (h1 : fits8 (c.1 + t.1)) (h2 : fits8 (c.2.1 + t.2.1)) (h3 : fits8 (c.2.2 + t.2.2)) :
    parseXYZ (rewriteIf t l) = some (shift3 t c) := by
  have hs1 : span 30 38 (rewriteIf t l) = pyFormat83 (c.1 + t.1) := by
    unfold span
    rw [rewriteIf_drop30 hg hp, show (38 : Nat) - 30 = 8 from rfl, List.take_left' h1]
  have hdrop38 : (rewriteIf t l).drop 38 =
      pyFormat83 (c.2.1 + t.2.1) ++ (pyFormat83 (c.2.2 + t.2.2) ++ l.drop 54) := by
    rw [show (38 : Nat) = 30 + 8 from rfl, ← List.drop_drop, rewriteIf_drop30 hg hp,
      List.drop_left' h1]
  have hs2 : span 38 46 (rewriteIf t l) = pyFormat83 (c.2.1 + t.2.1) := by
    unfold span
    rw [hdrop38, show (46 : Nat) - 38 = 8 from rfl, List.take_left' h2]
  have hs3 : span 46 54 (rewriteIf t l) = pyFormat83 (c.2.2 + t.2.2) := by
    unfold span
    rw [show (46 : Nat) = 38 + 8 from rfl, ← List.drop_drop, hdrop38, List.drop_left' h2,
      show (54 : Nat) - (38 + 8) = 8 from rfl, List.take_left' h3]
  unfold parseXYZ
  rw [hs1, hs2, hs3, pyFloat_pyFormat83, pyFloat_pyFormat83, pyFloat_pyFormat83]
  rfl

/-! ### The collection loop -/

theorem rewriteIf_nongeom {t : Q3} {l : List Char} (hg : geomLine l = false) :
    rewriteIf t l = l := by
  unfold rewriteIf
  simp [hg]

theorem collectCoords_map_rewrite (t : Q3) :
    ∀ (lines : List (List Char)) (coords : List Q3),
      collectCoords lines = some coords →
      (∀ c ∈ coords, fits8 (c.1 + t.1) ∧ fits8 (c.2.1 + t.2.1) ∧ fits8 (c.2.2 + t.2.2)) →
      collectCoords (lines.map (rewriteIf t)) = some (coords.map (shift3 t)) := by
  intro lines
  induction lines with
  | nil =>
    intro coords h hfit
    simp only [collectCoords] at h
    injection h with h
    subst h
    rfl
  | cons l ls ih =>
    intro coords h hfit
    by_cases hg : geomLine l = true
    · simp only [collectCoords, hg, if_true] at h
      rcases hp : parseXYZ l with _ | c0
      · rw [hp] at h; simp at h
      · rcases hcl : collectCoords ls with _ | cs0
        · rw [hp, hcl] at h; simp at h
        · rw [hp, hcl] at h
          simp only at h
          injection h with h
          subst h
          have hf0 := hfit c0 (List.mem_cons_self c0 cs0)
          have hftl : ∀ c ∈ cs0, fits8 (c.1 + t.1) ∧ fits8 (c.2.1 + t.2.1) ∧
              fits8 (c.2.2 + t.2.2) := fun c hc => hfit c (List.mem_cons_of_mem c0 hc)
          simp only [List.map_cons, collectCoords, rewriteIf_geom hg hp, if_true]
          rw [rewriteIf_parse hg hp hf0.1 hf0.2.1 hf0.2.2, ih cs0 hcl hftl]
    · have hg' : geomLine l = false := by revert hg; cases geomLine l <;> simp
      simp only [collectCoords, hg', if_false, Bool.false_eq_true] at h
      simp only [List.map_cons, rewriteIf_nongeom hg', collectCoords, hg', if_false,
        Bool.false_eq_true]
      exact ih coords h hfit

theorem collectCoords_none_of_bad :
    ∀ (lines : List (List Char)) (l : List Char), l ∈ lines → geomLine l = true →
      parseXYZ l = none → collectCoords lines = none := by
  intro lines
  induction lines with
  | nil => intro l h; simp at h
  | cons l' ls ih =>
    intro l hmem hg hp
    rcases List.mem_cons.mp hmem with rfl | hmem'
    · simp only [collectCoords, hg, if_true, hp]
    · by_cases hg' : geomLine l' = true
      · simp only [collectCoords, hg', if_true, ih l hmem' hg hp]
        cases parseXYZ l' <;> rfl
      · have hg'' : geomLine l' = false := by revert hg'; cases geomLine l' <;> simp
        simp only [collectCoords, hg'', if_false, Bool.false_eq_true]
        exact ih l hmem' hg hp

theorem collectCoords_mem_parse :
    ∀ (lines : List (List Char)) (coords : List Q3), collectCoords lines = some coords →
      ∀ l ∈ lines, geomLine l = true → ∃ c, parseXYZ l = some c ∧ c ∈ coords := by
  intro lines
  induction lines with
  | nil => intro coords _ l h; simp at h
  | cons l' ls ih =>
    intro coords h l hmem hg
    by_cases hg' : geomLine l' = true
    · simp only [collectCoords, hg', if_true] at h
      rcases hp : parseXYZ l' with _ | c0
      · rw [hp] at h; simp at h
      · rcases hcl : collectCoords ls with _ | cs0
        · rw [hp, hcl] at h; simp at h
        · rw [hp, hcl] at h
          simp only at h
          injection h with h
          subst h
          rcases List.mem_cons.mp hmem with rfl | hmem'
          · exact ⟨c0, hp, List.mem_cons_self c0 cs0⟩
          · obtain ⟨c, hc1, hc2⟩ := ih cs0 hcl l hmem' hg
            exact ⟨c, hc1, List.mem_cons_of_mem c0 hc2⟩
    · have hg'' : geomLine l' = false := by revert hg'; cases geomLine l' <;> simp
      simp only [collectCoords, hg'', if_false, Bool.false_eq_true] at h
      rcases List.mem_cons.mp hmem with rfl | hmem'
      · rw [hg] at hg''; exact absurd hg'' (by simp)
      · exact ih coords h l hmem' hg

theorem collectCoords_no_geom :
    ∀ (lines : List (List Char)), (∀ l ∈ lines, geomLine l = false) →
      collectCoords lines = some [] := by
  intro lines
  induction lines with
  | nil => intro _; rfl
  | cons l ls ih =>
    intro h
    have hg := h l (List.mem_cons_self l ls)
    simp only [collectCoords, hg, if_false, Bool.false_eq_true]
    exact ih fun x hx => h x (List.mem_cons_of_mem l hx)

/-! ### Mean bounds -/

theorem sum_sub_bound (f g : Q3 → ℚ) (b : ℚ) :
    ∀ (cs : List Q3), (∀ c ∈ cs, |f c - g c| ≤ b) →
      |(cs.map f).sum - (cs.map g).sum| ≤ (cs.length : ℚ) * b := by
  intro cs
  induction cs with
  | nil => intro _; simp
  | cons c cs ih =>
    intro h
    have h0 := h c (List.mem_cons_self c cs)
    have h1 := ih fun x hx => h x (List.mem_cons_of_mem c hx)
    simp only [List.map_cons, List.sum_cons, List.length_cons]
    have hrw : f c + (cs.map f).sum - (g c + (cs.map g).sum)
        = (f c - g c) + ((cs.map f).sum - (cs.map g).sum) := by ring
    rw [hrw]
    calc |(f c - g c) + ((cs.map f).sum - (cs.map g).sum)|
        ≤ |f c - g c| + |(cs.map f).sum - (cs.map g).sum| := abs_add _ _
    _ ≤ b + (cs.length : ℚ) * b := add_le_add h0 h1
    _ = ((cs.length : ℚ) + 1) * b := by ring
    _ = ((cs.length + 1 : ℕ) : ℚ) * b := by push_cast; ring

theorem sum_map_add (t : ℚ) (f : Q3 → ℚ) :
    ∀ (cs : List Q3), (cs.map (fun c => f c + t)).sum = (cs.map f).sum + (cs.length : ℚ) * t := by
  intro cs
  induction cs with
  | nil => simp
  | cons c cs ih =>
    simp only [List.map_cons, List.sum_cons, List.length_cons, ih]
    push_cast
    ring

theorem mean_rhe3_shift (p : Q3 → ℚ) (t1 : ℚ) (coords : List Q3) (hne : coords ≠ []) :
    |(coords.map (fun c => rhe3 (p c + t1))).sum / (coords.length : ℚ)
      - ((coords.map p).sum / (coords.length : ℚ) + t1)| ≤ 1 / 2000 := by
  have hn : (0 : ℚ) < (coords.length : ℚ) := by
    have := List.length_pos.mpr hne
    exact_mod_cast this
  have hsum := sum_sub_bound (fun c => rhe3 (p c + t1)) (fun c => p c + t1) (1 / 2000)
    coords (fun c _ => abs_rhe3_sub_le (p c + t1))
  have hg : (coords.map (fun c => p c + t1)).sum
      = (coords.map p).sum + (coords.length : ℚ) * t1 := sum_map_add t1 p coords
  have hmean : (coords.map p).sum / (coords.length : ℚ) + t1
      = (coords.map (fun c => p c + t1)).sum / (coords.length : ℚ) := by
    rw [hg]
    field_simp
    ring
  rw [hmean, div_sub_div_same, abs_div, abs_of_pos hn, div_le_iff₀ hn]
  calc |(coords.map (fun c => rhe3 (p c + t1))).sum - (coords.map (fun c => p c + t1)).sum|
      ≤ (coords.length : ℚ) * (1 / 2000) := hsum
  _ = 1 / 2000 * (coords.length : ℚ) := by ring

/-! ### Run inversion -/

theorem reposition_ligand_collect (lines : List (List Char)) (tx ty tz : ℚ) :
    reposition_ligand (some lines) tx ty tz =
      match collectCoords lines with
      | none => (false, none)
      | some [] => (false, none)
      | some (c :: cs) =>
        (true, some (lines.map (rewriteIf
          (tx - meanX (c :: cs), ty - meanY (c :: cs), tz - meanZ (c :: cs))))) := by
  rcases hcol : collectCoords lines with _ | ⟨_ | ⟨c, cs⟩⟩ <;>
    simp only [reposition_ligand, repositionBody, hcol]

theorem reposition_run_inv {lines out : List (List Char)} {tx ty tz : ℚ}
    (hrun : reposition_ligand (some lines) tx ty tz = (true, some out)) :
    ∃ c cs, collectCoords lines = some (c :: cs) ∧
      translationOf lines tx ty tz
        = (tx - meanX (c :: cs), ty - meanY (c :: cs), tz - meanZ (c :: cs)) ∧
      out = lines.map (rewriteIf (translationOf lines tx ty tz)) := by
  rw [reposition_ligand_collect] at hrun
  rcases hcol : collectCoords lines with _ | ⟨_ | ⟨c, cs⟩⟩ <;> rw [hcol] at hrun
  · simp at hrun
  · simp at hrun
  · simp only at hrun
    have hout : out = lines.map (rewriteIf
        (tx - meanX (c :: cs), ty - meanY (c :: cs), tz - meanZ (c :: cs))) := by
      injection hrun with h1 h2
      injection h2 with h2
      exact h2.symm
    have htr : translationOf lines tx ty tz
        = (tx - meanX (c :: cs), ty - meanY (c :: cs), tz - meanZ (c :: cs)) := by
      unfold translationOf
      rw [hcol]
    exact ⟨c, cs, rfl, htr, by rw [htr]; exact hout⟩

theorem reposition_of_collect_none {lines : List (List Char)} {tx ty tz : ℚ}
    (hcol : collectCoords lines = none) :
    reposition_ligand (some lines) tx ty tz = (false, none) := by
  rw [reposition_ligand_collect, hcol]

theorem reposition_of_collect_nil {lines : List (List Char)} {tx ty tz : ℚ}
    (hcol : collectCoords lines = some []) :
    reposition_ligand (some lines) tx ty tz = (false, none) := by
  rw [reposition_ligand_collect, hcol]

/-! ### Indexing helpers -/

theorem getD_map_rewrite (f : List Char → List Char) (hf : f [] = []) :
    ∀ (lines : List (List Char)) (i : Nat), (lines.map f).getD i [] = f (lines.getD i []) := by
  intro lines
  induction lines with
  | nil => intro i; cases i <;> simp [hf]
  | cons l ls ih =>
    intro i
    cases i with
    | zero => rfl
    | succ n => simpa using ih n

theorem getD_mem :
    ∀ (lines : List (List Char)) (i : Nat), i < lines.length → lines.getD i [] ∈ lines := by
  intro lines
  induction lines with
  | nil => intro i h; simp at h
  | cons l ls ih =>
    intro i h
    cases i with
    | zero => exact List.mem_cons_self l ls
    | succ n =>
      simp only [List.length_cons, Nat.succ_lt_succ_iff] at h
      simpa using List.mem_cons_of_mem l (ih n h)

theorem geomLine_nil : geomLine [] = false := by decide

theorem rewriteIf_nil (t : Q3) : rewriteIf t [] = [] := rewriteIf_nongeom geomLine_nil

/-! ### Means of rewritten coordinates -/

theorem meanX_map_shift3 (t : Q3) (coords : List Q3) :
    meanX (coords.map (shift3 t)) =
      (coords.map (fun c => rhe3 (c.1 + t.1))).sum / (coords.length : ℚ) := by
  unfold meanX
  rw [List.map_map, List.length_map]
  rfl

theorem meanY_map_shift3 (t : Q3) (coords : List Q3) :
    meanY (coords.map (shift3 t)) =
      (coords.map (fun c => rhe3 (c.2.1 + t.2.1))).sum / (coords.length : ℚ) := by
  unfold meanY
  rw [List.map_map, List.length_map]
  rfl

theorem meanZ_map_shift3 (t : Q3) (coords : List Q3) :
    meanZ (coords.map (shift3 t)) =
      (coords.map (fun c => rhe3 (c.2.2 + t.2.2))).sum / (coords.length : ℚ) := by
  unfold meanZ
  rw [List.map_map, List.length_map]
  rfl

/-! ### Fallback policy lemmas -/

theorem method3_policy (env : ConvEnv) (h2 : env.outcome 2 ≠ StratOutcome.otherRaise) :
    method3 env = Except.ok (strat3Success env) := by
  unfold method3 strat3Success
  cases ho : env.outcome 2 with
  | otherRaise => exact absurd ho h2
  | nonzeroExit => simp
  | exitZero =>
    cases hf : fsAfter3 env <;> simp [hf]

theorem method2_policy (env : ConvEnv) (h1 : env.outcome 1 ≠ StratOutcome.otherRaise)
    (h2 : env.outcome 2 ≠ StratOutcome.otherRaise) :
    method2 env = Except.ok (strat2Success env || strat3Success env) := by
  unfold method2 strat2Success
  cases ho : env.outcome 1 with
  | otherRaise => exact absurd ho h1
  | nonzeroExit => simp [method3_policy env h2]
  | exitZero =>
    cases hf : fsAfter2 env <;> simp [hf, method3_policy env h2]

/-! ## Claim theorems -/

/-- Claim C1 (amended): for every successful `reposition_ligand` run in
which each translated coordinate still fits its 8-character field, the
arithmetic-mean centroid recomputed from the output file's geometry
records equals the target point within the coordinate quantisation bound
1/2000 (half of the 0.001 resolution of the three-decimal fields) in
every component — not within 1e-6, which the decimal requantisation can
exceed. -/
theorem reposition_ligand_centroid (lines out : List (List Char)) (tx ty tz : ℚ)
    (hrun : reposition_ligand (some lines) tx ty tz = (true, some out))
    (hfit : fitsRun lines tx ty tz) :
    ∃ cs, collectCoords out = some cs ∧ cs ≠ [] ∧
      |meanX cs - tx| ≤ 1 / 2000 ∧ |meanY cs - ty| ≤ 1 / 2000 ∧ |meanZ cs - tz| ≤ 1 / 2000 := by
  obtain ⟨c, cs0, hcol, htr, hout⟩ := reposition_run_inv hrun
  have hne : (c :: cs0) ≠ ([] : List Q3) := List.cons_ne_nil c cs0
  have hco : coordsOf lines = c :: cs0 := by
    unfold coordsOf
    rw [hcol]
    rfl
  unfold fitsRun at hfit
  rw [hco] at hfit
  have hmap := collectCoords_map_rewrite (translationOf lines tx ty tz) lines (c :: cs0) hcol hfit
  refine ⟨(c :: cs0).map (shift3 (translationOf lines tx ty tz)), ?_, by simp, ?_, ?_, ?_⟩
  · rw [hout]
    exact hmap
  · have ht1 : (translationOf lines tx ty tz).1 = tx - meanX (c :: cs0) := by rw [htr]
    rw [meanX_map_shift3, ht1]
    have hbx := mean_rhe3_shift (fun x => x.1) (tx - meanX (c :: cs0)) (c :: cs0) hne
    have hmx : (List.map (fun x : Q3 => x.1) (c :: cs0)).sum / (((c :: cs0).length : ℕ) : ℚ)
        = meanX (c :: cs0) := rfl
    rw [hmx] at hbx
    have harith : meanX (c :: cs0) + (tx - meanX (c :: cs0)) = tx := by ring
    rw [harith] at hbx
    simpa using hbx
  · have ht1 : (translationOf lines tx ty tz).2.1 = ty - meanY (c :: cs0) := by rw [htr]
    rw [meanY_map_shift3, ht1]
    have hbx := mean_rhe3_shift (fun x => x.2.1) (ty - meanY (c :: cs0)) (c :: cs0) hne
    have hmx : (List.map (fun x : Q3 => x.2.1) (c :: cs0)).sum / (((c :: cs0).length : ℕ) : ℚ)
        = meanY (c :: cs0) := rfl
    rw [hmx] at hbx
    have harith : meanY (c :: cs0) + (ty - meanY (c :: cs0)) = ty := by ring
    rw [harith] at hbx
    simpa using hbx
  · have ht1 : (translationOf lines tx ty tz).2.2 = tz - meanZ (c :: cs0) := by rw [htr]
    rw [meanZ_map_shift3, ht1]
    have hbx := mean_rhe3_shift (fun x => x.2.2) (tz - meanZ (c :: cs0)) (c :: cs0) hne
    have hmx : (List.map (fun x : Q3 => x.2.2) (c :: cs0)).sum / (((c :: cs0).length : ℕ) : ℚ)
        = meanZ (c :: cs0) := rfl
    rw [hmx] at hbx
    have harith : meanZ (c :: cs0) + (tz - meanZ (c :: cs0)) = tz := by ring
    rw [harith] at hbx
    simpa using hbx

/-- Claim C3 (amended): for every successful `reposition_ligand` run in
which each rewritten coordinate still fits its 8-character field, the
output has exactly one line per input line in the same order, every
non-geometry line is unchanged, and every geometry line keeps its prefix
bytes 0–30 and suffix bytes 54–end; without the field-width side
condition an overflowing coordinate widens the line and shifts the
suffix. -/
theorem reposition_ligand_frame (lines out : List (List Char)) (tx ty tz : ℚ)
    (hrun : reposition_ligand (some lines) tx ty tz = (true, some out))
    (hfit : fitsRun lines tx ty tz) :
    out.length = lines.length ∧
    ∀ i, i < lines.length →
      (geomLine (lines.getD i []) = false → out.getD i [] = lines.getD i []) ∧
      (geomLine (lines.getD i []) = true →
        (out.getD i []).take 30 = (lines.getD i []).take 30 ∧
        (out.getD i []).drop 54 = (lines.getD i []).drop 54) := by
  obtain ⟨c, cs0, hcol, htr, hout⟩ := reposition_run_inv hrun
  have hco : coordsOf lines = c :: cs0 := by
    unfold coordsOf
    rw [hcol]
    rfl
  unfold fitsRun at hfit
  rw [hco] at hfit
  subst hout
  refine ⟨List.length_map _ _, ?_⟩
  intro i hi
  have hget : (lines.map (rewriteIf (translationOf lines tx ty tz))).getD i []
      = rewriteIf (translationOf lines tx ty tz) (lines.getD i []) :=
    getD_map_rewrite _ (rewriteIf_nil _) lines i
  constructor
  · intro hg
    rw [hget, rewriteIf_nongeom hg]
  · intro hg
    obtain ⟨cv, hp, hmemc⟩ :=
      collectCoords_mem_parse lines (c :: cs0) hcol (lines.getD i []) (getD_mem lines i hi) hg
    obtain ⟨hf1, hf2, hf3⟩ := hfit cv hmemc
    exact ⟨by rw [hget, rewriteIf_take30 hg hp],
      by rw [hget, rewriteIf_drop54 hg hp hf1 hf2 hf3]⟩

/-- Claim C4 (amended): a geometry-tagged line shorter than 47 characters
(whose truncated z-field is empty), or whose (possibly truncated)
coordinate text does not parse as a float, makes the whole
`reposition_ligand` run report failure with no output file written; a
line of length 47–53 whose truncated field still parses as a float is
accepted, so "shorter than 54" alone does not force failure. -/
theorem reposition_ligand_malformed (lines : List (List Char)) (tx ty tz : ℚ)
    (l : List Char) (hmem : l ∈ lines) (hgeom : geomLine l = true)
    (hbad : l.length < 47 ∨ parseXYZ l = none) :
    reposition_ligand (some lines) tx ty tz = (false, none) := by
  have hp : parseXYZ l = none := by
    rcases hbad with hlen | hp
    · by_cases h30 : l.length ≤ 30
      · exact parseXYZ_none_of_short h30
      · have hz : span 46 54 l = [] := by
          unfold span
          rw [List.drop_eq_nil_of_le (by omega)]
          rfl
        unfold parseXYZ
        rw [hz, pyFloat_nil]
        cases pyFloat (span 30 38 l) <;> cases pyFloat (span 38 46 l) <;> rfl
    · exact hp
  exact reposition_of_collect_none (collectCoords_none_of_bad lines l hmem hgeom hp)

/-- Claim C5: an input with no geometry-participating record at all makes
`reposition_ligand` fail cleanly: it returns `False` and writes no output
file. -/
theorem reposition_ligand_no_geom (lines : List (List Char)) (tx ty tz : ℚ)
    (hno : ∀ l ∈ lines, geomLine l = false) :
    reposition_ligand (some lines) tx ty tz = (false, none) :=
  reposition_of_collect_nil (collectCoords_no_geom lines hno)

/-- Claim C6: on a valid structure — every coordinate exactly
representable in the three-decimal fields and fitting its eight-column
field — repositioning onto the structure's own centroid is the identity:
the coordinates parsed from the output are exactly the input
coordinates. -/
theorem reposition_ligand_identity (lines out : List (List Char)) (tx ty tz : ℚ)
    (hrun : reposition_ligand (some lines) tx ty tz = (true, some out))
    (hval : ∀ c ∈ coordsOf lines, millirational c ∧ fits8 c.1 ∧ fits8 c.2.1 ∧ fits8 c.2.2)
    (htx : tx = meanX (coordsOf lines)) (hty : ty = meanY (coordsOf lines))
    (htz : tz = meanZ (coordsOf lines)) :
    collectCoords out = some (coordsOf lines) := by
  obtain ⟨c, cs0, hcol, htr, hout⟩ := reposition_run_inv hrun
  have hco : coordsOf lines = c :: cs0 := by
    unfold coordsOf
    rw [hcol]
    rfl
  rw [hco] at hval htx hty htz
  have ht0 : translationOf lines tx ty tz = ((0 : ℚ), (0 : ℚ), (0 : ℚ)) := by
    rw [htr, htx, hty, htz]
    simp
  have hfit : ∀ x ∈ c :: cs0, fits8 (x.1 + ((0 : ℚ), (0 : ℚ), (0 : ℚ)).1) ∧
      fits8 (x.2.1 + ((0 : ℚ), (0 : ℚ), (0 : ℚ)).2.1) ∧
      fits8 (x.2.2 + ((0 : ℚ), (0 : ℚ), (0 : ℚ)).2.2) := by
    intro x hx
    obtain ⟨_, hf1, hf2, hf3⟩ := hval x hx
    simpa using ⟨hf1, hf2, hf3⟩
  have hmap := collectCoords_map_rewrite ((0 : ℚ), (0 : ℚ), (0 : ℚ)) lines (c :: cs0) hcol hfit
  have hid : (c :: cs0).map (shift3 ((0 : ℚ), (0 : ℚ), (0 : ℚ))) = c :: cs0 := by
    have hpt : ∀ x ∈ c :: cs0, shift3 ((0 : ℚ), (0 : ℚ), (0 : ℚ)) x = x := by
      intro x hx
      obtain ⟨⟨hm1, hm2, hm3⟩, _, _, _⟩ := hval x hx
      unfold shift3
      simp only [add_zero]
      rw [rhe3_exact hm1, rhe3_exact hm2, rhe3_exact hm3]
    calc (c :: cs0).map (shift3 ((0 : ℚ), (0 : ℚ), (0 : ℚ)))
        = (c :: cs0).map id := List.map_congr_left hpt
    _ = c :: cs0 := List.map_id _
  rw [hout, ht0, hco, hmap, hid]

/-- Claim C7: parsing an 8-character field produced by the `%8.3f`
formatter from a three-decimal value and re-formatting the parsed number
reproduces the field byte for byte. -/
theorem format_of_parse_roundtrip (s : List Char)
    (h : ∃ m : Int, s = pyFormat83 ((m : ℚ) / 1000) ∧ s.length = 8) :
    ∃ v, pyFloat s = some v ∧ pyFormat83 v = s := by
  obtain ⟨m, rfl, _⟩ := h
  refine ⟨(m : ℚ) / 1000, ?_, rfl⟩
  rw [pyFloat_pyFormat83]
  congr 1
  rw [rhe3, show ((m : ℚ) / 1000) * 1000 = (m : ℚ) by field_simp, rhe_intCast]

/-- Claim C9: `reposition_ligand` is total at its interface: for every
input (including an unreadable file, modelled by `none`) and every
target, the call returns normally with the boolean-and-output pair —
every internal exception is caught by the `except Exception` handler and
converted into a `False` return, and none propagates to the caller. -/
theorem reposition_ligandE_total (content : Option (List (List Char))) (tx ty tz : ℚ) :
    reposition_ligandE content tx ty tz = Except.ok (reposition_ligand content tx ty tz) := by
  unfold reposition_ligandE reposition_ligand
  cases repositionBody content tx ty tz with
  | ok r => rfl
  | error e => cases e <;> rfl

/-- Claim C2 (amended): when no strategy raises an exception other than
`CalledProcessError`, the three strategies are tried in order, a strategy
succeeds exactly when its subprocess exits zero and the artifact exists
on disk afterwards, failures fall through silently, and the overall
result is `True` iff some strategy succeeds; a non-`CalledProcessError`
invocation exception, however, propagates out of the function instead of
falling through (the `try` blocks catch only `CalledProcessError`). -/
theorem convert_pdb_to_pdbqt_policy (env : ConvEnv)
    (h0 : env.outcome 0 ≠ StratOutcome.otherRaise)
    (h1 : env.outcome 1 ≠ StratOutcome.otherRaise)
    (h2 : env.outcome 2 ≠ StratOutcome.otherRaise) :
    convert_pdb_to_pdbqt env
      = Except.ok (strat1Success env || strat2Success env || strat3Success env) := by
  unfold convert_pdb_to_pdbqt strat1Success
  cases ho : env.outcome 0 with
  | otherRaise => exact absurd ho h0
  | nonzeroExit => simp [method2_policy env h1 h2, Bool.or_assoc]
  | exitZero =>
    cases hf : fsAfter1 env <;> simp [hf, method2_policy env h1 h2, Bool.or_assoc]

/-- Claim C10: if the output artifact already exists before
`convert_pdb_to_pdbqt` runs, then as soon as any strategy's subprocess
exits zero the function reports success, even when no strategy wrote
anything: the existence check cannot tell a fresh artifact from a stale
one. -/
theorem convert_pdb_to_pdbqt_stale (env : ConvEnv)
    (hpre : env.pre = true)
    (hnoraise : ∀ i : Fin 3, env.outcome i ≠ StratOutcome.otherRaise)
    (hzero : ∃ i : Fin 3, env.outcome i = StratOutcome.exitZero)
    (_hnowrite : ∀ i : Fin 3, env.writes i = false) :
    convert_pdb_to_pdbqt env = Except.ok true := by
  have hfs1 : fsAfter1 env = true := by simp [fsAfter1, hpre]
  have hfs2 : fsAfter2 env = true := by simp [fsAfter2, hfs1]
  have hfs3 : fsAfter3 env = true := by simp [fsAfter3, hfs2]
  obtain ⟨i, hi⟩ := hzero
  unfold convert_pdb_to_pdbqt method2 method3
  cases h0 : env.outcome 0 with
  | otherRaise => exact absurd h0 (hnoraise 0)
  | exitZero => simp [hfs1]
  | nonzeroExit =>
    cases h1 : env.outcome 1 with
    | otherRaise => exact absurd h1 (hnoraise 1)
    | exitZero => simp [hfs2]
    | nonzeroExit =>
      cases h2 : env.outcome 2 with
      | otherRaise => exact absurd h2 (hnoraise 2)
      | exitZero => simp [hfs3]
      | nonzeroExit =>
        exfalso
        rcases i with ⟨iv, hiv⟩
        interval_cases iv
        · exact StratOutcome.noConfusion
            ((show env.outcome 0 = StratOutcome.exitZero from hi).symm.trans h0)
        · exact StratOutcome.noConfusion
            ((show env.outcome 1 = StratOutcome.exitZero from hi).symm.trans h1)
        · exact StratOutcome.noConfusion
            ((show env.outcome 2 = StratOutcome.exitZero from hi).symm.trans h2)

/-! ## Concrete counterexamples and witnesses

The `%8.3f` formatter and `float()` parser are executable; with the
arithmetic on `ℚ` made reducible again, `decide` evaluates whole
`reposition_ligand` runs inside the kernel. -/

section ConcreteRuns

attribute [local semireducible] Rat.add Rat.mul Rat.sub Rat.inv Rat.ofScientific

/-- Claim C1, counterexample to the statement as written: three atoms at
x = 0, 0, 0.001 repositioned to (10,0,0) succeed, but the centroid
recomputed from the output file is 10.000333…, off by 1/3000 > 1e-6,
because the translated coordinates are requantised to three decimals. -/
theorem reposition_ligand_centroid_cex :
    (reposition_ligand (some exThirds) 10 0 0).1 = true ∧
    (reposition_ligand (some exThirds) 10 0 0).2 = some exThirdsOut ∧
    collectCoords exThirdsOut
      = some [(10, 0, 0), (10, 0, 0), ((10001 : ℚ) / 1000, 0, 0)] ∧
    ¬ |meanX [((10 : ℚ), (0 : ℚ), (0 : ℚ)), (10, 0, 0), ((10001 : ℚ) / 1000, 0, 0)] - 10|
        ≤ 1 / 1000000 := by
  refine ⟨by decide, by decide, by decide, by decide⟩

/-- Claim C1, witness: the spec's own end-to-end example discharges the
amended theorem's hypotheses, and its output atoms are exactly (9,9,9)
and (11,11,11). -/
theorem reposition_ligand_centroid_witness :
    (∃ cs, collectCoords exTwoAtomsOut = some cs ∧ cs ≠ [] ∧
      |meanX cs - 10| ≤ 1 / 2000 ∧ |meanY cs - 10| ≤ 1 / 2000 ∧ |meanZ cs - 10| ≤ 1 / 2000) ∧
    collectCoords exTwoAtomsOut = some [(9, 9, 9), (11, 11, 11)] :=
  ⟨reposition_ligand_centroid exTwoAtoms exTwoAtomsOut 10 10 10 (by decide) (by decide),
   by decide⟩

/-- Claim C3, counterexample to the statement as written: a target far
from the structure makes the x field ten characters wide, so the
rewritten line's bytes from offset 54 differ from the input's. -/
theorem reposition_ligand_frame_cex :
    (reposition_ligand (some [exSuffix]) 100000 0 0).1 = true ∧
    (reposition_ligand (some [exSuffix]) 100000 0 0).2 = some [exSuffixOutLine] ∧
    geomLine exSuffix = true ∧
    exSuffixOutLine.drop 54 ≠ exSuffix.drop 54 := by
  refine ⟨by decide, by decide, by decide, by decide⟩

/-- Claim C3, witness: a run with a `REMARK` line and one atom satisfies
the amended frame property; the non-geometry line is returned
byte-identical. -/
theorem reposition_ligand_frame_witness :
    exMixOut.length = exMix.length ∧ exMixOut.getD 0 [] = exMix.getD 0 [] :=
  ⟨(reposition_ligand_frame exMix exMixOut 10 10 10 (by decide) (by decide)).1,
   ((reposition_ligand_frame exMix exMixOut 10 10 10 (by decide) (by decide)).2 0
      (by decide)).1 (by decide)⟩

/-- Claim C4, counterexample to the statement as written: a 49-character
geometry line, shorter than 54, still repositions successfully because
its truncated z field `3.0` parses as a float. -/
theorem reposition_ligand_malformed_cex :
    exShort.length = 49 ∧ geomLine exShort = true ∧
    (reposition_ligand (some [exShort]) 0 0 0).1 = true ∧
    (reposition_ligand (some [exShort]) 0 0 0).2 ≠ none := by
  refine ⟨by decide, by decide, by decide, by decide⟩

/-- Claim C4, witness: a 46-character geometry line (empty z field)
aborts the run with no output written. -/
theorem reposition_ligand_malformed_witness :
    reposition_ligand (some [exBad46]) 1 2 3 = (false, none) :=
  reposition_ligand_malformed [exBad46] 1 2 3 exBad46 (by decide) (by decide)
    (Or.inl (by decide))

/-- Claim C5, witness: a structure of only `REMARK`/`CONECT` lines fails
cleanly with no output. -/
theorem reposition_ligand_no_geom_witness :
    reposition_ligand (some exNoGeom) 1 2 3 = (false, none) :=
  reposition_ligand_no_geom exNoGeom 1 2 3 (by decide)

/-- Claim C6, witness: repositioning the two-atom example onto its own
centroid (1,1,1) reproduces the input coordinates exactly. -/
theorem reposition_ligand_identity_witness :
    collectCoords exTwoAtomsIdOut = some (coordsOf exTwoAtoms) :=
  reposition_ligand_identity exTwoAtoms exTwoAtomsIdOut 1 1 1 (by decide) (by decide)
    (by decide) (by decide) (by decide)

/-- Claim C7, witness: the field `"  -5.100"` parses to -5.1 and formats
back to itself. -/
theorem format_of_parse_roundtrip_witness :
    ∃ v, pyFloat ("  -5.100".toList) = some v ∧ pyFormat83 v = "  -5.100".toList :=
  format_of_parse_roundtrip ("  -5.100".toList) ⟨-5100, by decide, by decide⟩

theorem format_shape (sgn : List Char) (A B : Nat)
    (hB : B < 1000) (htot : sgn.length + (natChars A).length ≤ 4) :
    (List.replicate (8 - (sgn ++ natChars A ++ '.' :: fracChars B).length) ' ' ++
      (sgn ++ natChars A ++ '.' :: fracChars B)).length = 8 ∧
    (List.replicate (8 - (sgn ++ natChars A ++ '.' :: fracChars B).length) ' ' ++
      (sgn ++ natChars A ++ '.' :: fracChars B)).drop 4 = '.' :: fracChars B := by
  have hfr := fracChars_length B hB
  have hL : (sgn ++ natChars A ++ '.' :: fracChars B).length
      = sgn.length + (natChars A).length + 4 := by
    simp only [List.length_append, List.length_cons, hfr]
  constructor
  · simp only [List.length_append, List.length_replicate, hL]
    omega
  · have hsplit : List.replicate (8 - (sgn ++ natChars A ++ '.' :: fracChars B).length) ' ' ++
        (sgn ++ natChars A ++ '.' :: fracChars B)
        = (List.replicate (8 - (sgn ++ natChars A ++ '.' :: fracChars B).length) ' '
            ++ (sgn ++ natChars A)) ++ ('.' :: fracChars B) := by
      simp [List.append_assoc]
    have hx : (List.replicate (8 - (sgn ++ natChars A ++ '.' :: fracChars B).length) ' '
        ++ (sgn ++ natChars A)).length = 4 := by
      simp only [List.length_append, List.length_replicate, hL]
      omega
    rw [hsplit, List.drop_left' hx]

/-- Claim C8 (amended): for every value in the 8-column range the
formatter yields exactly eight characters with the decimal point at index
4 and three digits after it, and the two examples render as
`"  12.345"` (two leading spaces, not one) and `"  -5.100"`. -/
theorem pyFormat83_width8 (q : ℚ)
    (hlo : -999999 ≤ rhe (q * 1000)) (hhi : rhe (q * 1000) ≤ 9999999) :
    (pyFormat83 q).length = 8 ∧
    ((pyFormat83 q).drop 4).take 1 = ['.'] ∧
    (∀ c ∈ (pyFormat83 q).drop 5, c.isDigit = true) ∧
    pyFormat83 ((12345 : ℚ) / 1000) = "  12.345".toList ∧
    pyFormat83 (-(51 : ℚ) / 10) = "  -5.100".toList := by
  have hb : (rhe (q * 1000)).natAbs % 1000 < 1000 := Nat.mod_lt _ (by norm_num)
  have hmain : (pyFormat83 q).length = 8 ∧
      (pyFormat83 q).drop 4 = '.' :: fracChars ((rhe (q * 1000)).natAbs % 1000) := by
    by_cases hq : q < 0
    · have hle : rhe (q * 1000) ≤ 0 := rhe_nonpos (by nlinarith)
      have habs : (rhe (q * 1000)).natAbs ≤ 999999 := by omega
      have hdiv : (rhe (q * 1000)).natAbs / 1000 < 10 ^ 3 := by
        have h1 : (rhe (q * 1000)).natAbs / 1000 ≤ 999999 / 1000 := Nat.div_le_div_right habs
        norm_num at h1 ⊢
        omega
      have hA : (natChars ((rhe (q * 1000)).natAbs / 1000)).length ≤ 3 :=
        natChars_length_le (by norm_num) hdiv
      have hshape := format_shape ['-'] ((rhe (q * 1000)).natAbs / 1000)
        ((rhe (q * 1000)).natAbs % 1000) hb (by simp; omega)
      simpa only [pyFormat83, if_pos hq] using hshape
    · have hge : 0 ≤ rhe (q * 1000) := rhe_nonneg (by nlinarith [not_lt.mp hq])
      have habs : (rhe (q * 1000)).natAbs ≤ 9999999 := by omega
      have hdiv : (rhe (q * 1000)).natAbs / 1000 < 10 ^ 4 := by
        have h1 : (rhe (q * 1000)).natAbs / 1000 ≤ 9999999 / 1000 := Nat.div_le_div_right habs
        norm_num at h1 ⊢
        omega
      have hA : (natChars ((rhe (q * 1000)).natAbs / 1000)).length ≤ 4 :=
        natChars_length_le (by norm_num) hdiv
      have hshape := format_shape [] ((rhe (q * 1000)).natAbs / 1000)
        ((rhe (q * 1000)).natAbs % 1000) hb (by simp; omega)
      simpa only [pyFormat83, if_neg hq, List.nil_append] using hshape
  refine ⟨hmain.1, ?_, ?_, by decide, by decide⟩
  · rw [hmain.2]
    rfl
  · have hdrop5 : (pyFormat83 q).drop 5
        = fracChars ((rhe (q * 1000)).natAbs % 1000) := by
      have h45 : (5 : Nat) = 4 + 1 := rfl
      rw [h45, ← List.drop_drop, hmain.2]
      rfl
    rw [hdrop5]
    exact mem_fracChars_isDigit _

/-- Claim C8, counterexample to the statement as written: 12.345 does not
render as the 7-character string `" 12.345"`. -/
theorem pyFormat83_width8_cex :
    pyFormat83 ((12345 : ℚ) / 1000) ≠ (" 12.345").toList := by decide

/-- Claim C8, witness: the amended theorem applied at -5.1. -/
theorem pyFormat83_width8_witness : (pyFormat83 (-(51 : ℚ) / 10)).length = 8 :=
  (pyFormat83_width8 (-(51 : ℚ) / 10) (by decide) (by decide)).1

/-- Claim C2, counterexample to the statement as written: if strategy 1's
invocation raises an exception that is not a `CalledProcessError`, the
exception propagates — the function neither proceeds to strategy 2 (which
would succeed here) nor returns a boolean. -/
theorem convert_pdb_to_pdbqt_policy_cex :
    convert_pdb_to_pdbqt envRaise1 = Except.error () ∧ strat2Success envRaise1 = true := by
  refine ⟨rfl, by decide⟩

/-- Claim C2, witness: the spec's fallback scenario — strategy 1 exits
non-zero, strategy 2 exits zero without producing the artifact, strategy
3 succeeds — returns overall success. -/
theorem convert_pdb_to_pdbqt_policy_witness :
    convert_pdb_to_pdbqt envScenario = Except.ok true :=
  (convert_pdb_to_pdbqt_policy envScenario (by decide) (by decide) (by decide)).trans rfl

/-- Claim C10, witness: with a pre-existing artifact, zero exits and no
writes at all, the function still reports success. -/
theorem convert_pdb_to_pdbqt_stale_witness :
    convert_pdb_to_pdbqt envStale = Except.ok true :=
  convert_pdb_to_pdbqt_stale envStale (by decide) (by decide) ⟨0, by decide⟩ (by decide)

end ConcreteRuns
